import Mathlib

/-
  Shallow embedding of the multilevel feedback-queue scheduler in
  src/os/Feedback Queue/kernel_sched.c.

  Modelling conventions.
  * A TCB is a record of the scheduler-relevant fields of the C struct,
    plus a thread identifier tid standing for the address of the block
    (two live TCBs are distinct objects, hence distinct tids).
  * The intrusive rlnode lists are modelled as Lean lists of TCB values:
    SCHED[0..PRIORITY_LISTS) becomes a List (List TCB) indexed by
    priority, front of the Lean list = head of the C list, and
    TIMEOUT_LIST becomes a List TCB.
  * TimerDuration is unsigned; NO_TIMEOUT is its maximal value.  We model
    wakeup_time as Option Nat, none standing for NO_TIMEOUT, so that the
    C comparison x < NO_TIMEOUT is true for every realistic x.
  * PRIORITY_LISTS and MAX_CONGESTION come from kernel_sched.h, which is
    not part of the repository snapshot; they stay parameters (P, MAXC)
    with TOP_PRIORITY = P - 1 and LOWEST_PRIORITY = 0 as the spec states.
  * C int counters (counter_congestion, fail_safe, thread_count) are
    modelled as Int; the unsigned 32-bit active_threads decrement is
    modelled with an explicit wrap modulo 2 ^ 32.
-/

/-- Thread states of the C enum Thread_state. -/
inductive Thread_state where
  | INIT | READY | RUNNING | STOPPED | EXITED
deriving DecidableEq, Repr

/-- Context phase of the C enum Thread_phase. -/
inductive Thread_phase where
  | CTX_CLEAN | CTX_DIRTY
deriving DecidableEq, Repr

/-- Thread type of the C enum Thread_type. -/
inductive Thread_type where
  | NORMAL_THREAD | IDLE_THREAD
deriving DecidableEq, Repr

/-- Scheduling causes of the C enum SCHED_CAUSE (SCHED_QUANTUM, SCHED_IO,
SCHED_MUTEX, SCHED_PIPE, SCHED_POLL, SCHED_IDLE, SCHED_USER). -/
inductive SCHED_CAUSE where
  | quantum | ioWait | mutex | pipe | poll | idleCause | user
deriving DecidableEq, Repr

/-- The scheduler-relevant fields of the C struct thread_control_block.
tid models the identity (address) of the block; owner_pcb and owner_ptcb
are ids of the owning PCB and of the optional user-visible PTCB. -/
structure TCB where
  tid : Nat
  ttype : Thread_type
  state : Thread_state
  phase : Thread_phase
  wakeup_time : Option Nat
  priority : Int
  mutex_flag : Bool
  prev_queue : Int
  owner_pcb : Nat
  owner_ptcb : Option Nat
deriving DecidableEq, Repr

/-- LOWEST_PRIORITY of kernel_sched.h as the spec fixes it. -/
def LOWEST_PRIORITY : Int := 0

/-- Comparison a < b on wakeup times, where none stands for the maximal
unsigned value NO_TIMEOUT (so some x < none for every x, and never
none < y). -/
def wkLtB (a b : Option Nat) : Bool :=
  match a, b with
  | some x, some y => x < y
  | some _, none => true
  | none, _ => false

/-- Non-strict companion of wkLtB. -/
def wkLeB (a b : Option Nat) : Bool := !(wkLtB b a)

/-- TIMEOUT_LIST ordered by non-decreasing wakeup_time (adjacent pairs). -/
def sortedWkB : List TCB → Bool
  | [] => true
  | [_] => true
  | a :: b :: rest => wkLeB a.wakeup_time b.wakeup_time && sortedWkB (b :: rest)

/-- The insertion loop of sched_register_timeout, lines 246-251: walk the
list skipping entries whose wakeup time is not strictly later than the
new one, and splice the new node right before the first strictly later
entry (hence after all equal ones). -/
def timeoutInsert (t : TCB) : List TCB → List TCB
  | [] => [t]
  | n :: rest =>
    if wkLtB t.wakeup_time n.wakeup_time then t :: n :: rest
    else n :: timeoutInsert t rest

/-- sched_register_timeout, lines 237-253: when timeout is not NO_TIMEOUT,
set wakeup_time to bios_clock() + timeout and insert into TIMEOUT_LIST in
sorted order; otherwise do nothing.  Returns the updated TCB and list. -/
def sched_register_timeout (curtime : Nat) (t : TCB) (timeout : Option Nat)
    (tl : List TCB) : TCB × List TCB :=
  match timeout with
  | none => (t, tl)
  | some d =>
    let t1 : TCB := { t with wakeup_time := some (curtime + d) }
    (t1, timeoutInsert t1 tl)

/-- rlist_push_back into SCHED[p] (sched_queue_add, line 264).  Indices
beyond the array are left unchanged (the C program would be out of
bounds there; all claims are stated within bounds). -/
def queuePushBack (qs : List (List TCB)) (p : Nat) (t : TCB) :
    List (List TCB) :=
  qs.set p (qs.getD p [] ++ [t])

/-- The TCB as sched_make_ready leaves it: off the timeout list
(wakeup_time = NO_TIMEOUT) and READY. -/
def readyT (t : TCB) : TCB :=
  { t with wakeup_time := none, state := Thread_state.READY }

/-- The ready-queue effect of sched_make_ready: enqueue into
SCHED[priority] only when the context phase is CTX_CLEAN. -/
def enqReady (qs : List (List TCB)) (t : TCB) : List (List TCB) :=
  if t.phase = Thread_phase.CTX_CLEAN then
    queuePushBack qs t.priority.toNat (readyT t)
  else qs

/-- sched_make_ready, lines 276-294: if a timeout was registered, remove
the node from TIMEOUT_LIST and clear wakeup_time; mark READY; enqueue
into SCHED[priority] when the phase is CTX_CLEAN.  Returns the updated
TCB, TIMEOUT_LIST and ready queues. -/
def sched_make_ready (t : TCB) (tl : List TCB) (qs : List (List TCB)) :
    TCB × List TCB × List (List TCB) :=
  let step1 : TCB × List TCB :=
    match t.wakeup_time with
    | some _ => ({ t with wakeup_time := none },
                 tl.eraseP (fun x => x.tid == t.tid))
    | none => (t, tl)
  let t2 : TCB := { step1.1 with state := Thread_state.READY }
  let qs1 : List (List TCB) :=
    if t2.phase = Thread_phase.CTX_CLEAN then
      queuePushBack qs t2.priority.toNat t2
    else qs
  (t2, step1.2, qs1)

/-- wakeup, lines 375-396: under the scheduler lock, if the state is
STOPPED or INIT call sched_make_ready and return 1, else return 0.
Result: (return value, updated TCB, TIMEOUT_LIST, ready queues). -/
def wakeup (t : TCB) (tl : List TCB) (qs : List (List TCB)) :
    Bool × TCB × List TCB × List (List TCB) :=
  if t.state = Thread_state.STOPPED ∨ t.state = Thread_state.INIT then
    (true, sched_make_ready t tl qs)
  else
    (false, t, tl, qs)

/-- Has this wakeup time expired at the current clock value?  Matches the
loop guard of lines 310-315: a head with wakeup_time NO_TIMEOUT compares
strictly greater than any clock value and stops the drain. -/
def expiredB (curtime : Nat) (t : TCB) : Bool :=
  match t.wakeup_time with
  | some w => w ≤ curtime
  | none => false

/-- The timeout drain at the top of sched_queue_select, lines 309-315:
while the head of TIMEOUT_LIST has wakeup_time ≤ bios_clock(), make it
READY via sched_make_ready (which pops it off the list and enqueues it
when its context is clean). -/
def drainT (curtime : Nat) : List TCB → List (List TCB) →
    List TCB × List (List TCB)
  | [], qs => ([], qs)
  | t :: rest, qs =>
    if expiredB curtime t then drainT curtime rest (enqReady qs t)
    else (t :: rest, qs)

/-- The selection scan of lines 318-322, read off at index i downwards:
pop the front of the first non-empty SCHED list.  Returns the popped
TCB, the index it came from and the queues after the pop. -/
def scanPopAux (qs : List (List TCB)) : Nat →
    Option (TCB × Nat × List (List TCB))
  | 0 =>
    match qs.getD 0 [] with
    | [] => none
    | t :: r => some (t, 0, qs.set 0 r)
  | i + 1 =>
    match qs.getD (i + 1) [] with
    | [] => scanPopAux qs i
    | t :: r => some (t, i + 1, qs.set (i + 1) r)

/-- The inner congestion scan of lines 330-338, at index j downwards:
find a non-empty list strictly below the pop index (+1), or reach
LOWEST_PRIORITY with all of them empty (-1). -/
def belowDeltaAux (qs : List (List TCB)) : Nat → Int
  | 0 => if qs.getD 0 [] = [] then -1 else 1
  | j + 1 => if qs.getD (j + 1) [] = [] then belowDeltaAux qs j else 1

/-- The congestion adjustment of lines 325-339 as a delta: -1 when no
thread was popped or it came from SCHED[LOWEST_PRIORITY], otherwise the
result of the scan below the pop index. -/
def ccDelta (pop : Option (TCB × Nat × List (List TCB))) : Int :=
  match pop with
  | none => -1
  | some (_, i, qs2) => if i = 0 then -1 else belowDeltaAux qs2 (i - 1)

/-- The inner while loop of boost, lines 363-367: pop every TCB off the
source list, increment its priority, push it at the back of the
destination list. -/
def drainInto (dst : List TCB) : List TCB → List TCB
  | [] => dst
  | t :: rest => drainInto (dst ++ [{ t with priority := t.priority + 1 }]) rest

/-- Priority increment applied by boost to each moved TCB. -/
def bump1 (t : TCB) : TCB := { t with priority := t.priority + 1 }

/-- One iteration of the outer boost loop at index i: drain SCHED[i] into
the back of SCHED[i+1]. -/
def stepAt (qs : List (List TCB)) (i : Nat) : List (List TCB) :=
  (qs.set (i + 1) (drainInto (qs.getD (i + 1) []) (qs.getD i []))).set i []

/-- The outer boost loop, lines 362-368, running indices i, i-1, ..., 0. -/
def boostAux : List (List TCB) → Nat → List (List TCB)
  | qs, 0 => stepAt qs 0
  | qs, i + 1 => boostAux (stepAt qs (i + 1)) i

/-- The queue reshuffle of boost, lines 356-369, for PRIORITY_LISTS = P:
the loop starts at TOP_PRIORITY - 1 = P - 2 and does not run when
P ≤ 1. -/
def boostQ (P : Nat) (qs : List (List TCB)) : List (List TCB) :=
  match P with
  | 0 => qs
  | 1 => qs
  | n + 2 => boostAux qs n

/-- Scheduler-global state touched by sched_queue_select: the ready
queues SCHED, TIMEOUT_LIST, counter_congestion (cc) and fail_safe (fs). -/
structure SchedState where
  queues : List (List TCB)
  timeouts : List TCB
  cc : Int
  fs : Int
deriving DecidableEq, Repr

/-- boost, lines 356-369: reset counter_congestion and float every
non-top ready list one level up.  fail_safe is not touched. -/
def boost (P : Nat) (s : SchedState) : SchedState :=
  { s with cc := 0, queues := boostQ P s.queues }

/-- Result of sched_queue_select: the popped node sel (none models the
null pointer), whether boost was invoked, and the state after the call. -/
structure SelectResult where
  sel : Option TCB
  boosted : Bool
  st : SchedState
deriving Repr

/-- The conditional boost invocation of lines 347-349. -/
def boostIf (P : Nat) (b : Bool) (s : SchedState) : SchedState :=
  if b then boost P s else s

/-- The congestion counter right after the update and the clamp of lines
325-343, before any boost. -/
def selectCC (P : Nat) (curtime : Nat) (s : SchedState) : Int :=
  let qs1 := (drainT curtime s.timeouts s.queues).2
  let cc1 := s.cc + ccDelta (scanPopAux qs1 (P - 1))
  if cc1 < 0 then 0 else cc1

/-- sched_queue_select, lines 303-353, for PRIORITY_LISTS = P and
MAX_CONGESTION = MAXC: drain expired timeouts, scan SCHED top-down and
pop the first non-empty list, update and clamp counter_congestion,
increment fail_safe, boost when counter_congestion ≥ MAX_CONGESTION or
fail_safe == 500.  The C function ends in return sel->tcb; the sel
field of the result is that pointer, so sel = none means line 352
dereferences NULL. -/
def sched_queue_select (P : Nat) (MAXC : Int) (curtime : Nat)
    (s : SchedState) : SelectResult :=
  let dr := drainT curtime s.timeouts s.queues
  let pop := scanPopAux dr.2 (P - 1)
  let qs2 : List (List TCB) :=
    match pop with
    | none => dr.2
    | some (_, _, q) => q
  let sel : Option TCB :=
    match pop with
    | none => none
    | some (t, _, _) => some t
  let cc1 := s.cc + ccDelta pop
  let cc2 := if cc1 < 0 then 0 else cc1
  let fs1 := s.fs + 1
  let boosted : Bool := decide (MAXC ≤ cc2 ∨ fs1 = 500)
  let st1 : SchedState := ⟨qs2, dr.1, cc2, fs1⟩
  ⟨sel, boosted, boostIf P boosted st1⟩

/-- Line 352 is return sel->tcb.  This predicate holds exactly when that
statement dereferences the null pointer (no thread was popped). -/
def selectDerefsNull (P : Nat) (MAXC : Int) (curtime : Nat)
    (s : SchedState) : Bool :=
  (sched_queue_select P MAXC curtime s).sel.isNone

/-- A run of sched_queue_select calls.  Each step carries the clock value
observed by the call and an environment transformation standing for
whatever the rest of the kernel did to the scheduler state in between
(wakeups, registrations, ...). -/
def runSel (P : Nat) (MAXC : Int)
    (steps : List (Nat × (SchedState → SchedState))) (s0 : SchedState) :
    SchedState :=
  steps.foldl (fun s st => (sched_queue_select P MAXC st.1 (st.2 s)).st) s0

/-- n-fold iteration helper. -/
def iterateN (f : α → α) : Nat → α → α
  | 0, x => x
  | n + 1, x => iterateN f n (f x)

/-- The priority-adjustment block of yield, lines 453-488, on the current
TCB, for TOP_PRIORITY = TOP (LOWEST_PRIORITY = 0): per-cause adjustment,
clamp into [LOWEST_PRIORITY, TOP_PRIORITY], then the mutex restore when
mutex_flag is set and the cause is not SCHED_MUTEX. -/
def yieldAdjust (TOP : Int) (cause : SCHED_CAUSE) (t : TCB) : TCB :=
  let t1 : TCB :=
    match cause with
    | SCHED_CAUSE.quantum => { t with priority := t.priority - 1 }
    | SCHED_CAUSE.ioWait => { t with priority := t.priority + 1 }
    | SCHED_CAUSE.mutex =>
      let ta : TCB :=
        if t.mutex_flag = false then { t with prev_queue := t.priority }
        else t
      { ta with priority := LOWEST_PRIORITY, mutex_flag := true }
    | _ => t
  let t2 : TCB :=
    if t1.priority < LOWEST_PRIORITY then { t1 with priority := LOWEST_PRIORITY }
    else if t1.priority > TOP then { t1 with priority := TOP }
    else t1
  if t2.mutex_flag = true ∧ cause ≠ SCHED_CAUSE.mutex then
    { t2 with mutex_flag := false, priority := t2.prev_queue }
  else t2

/-- release_TCB, lines 170-181: free the block (recorded by appending the
tid to the freed list) and decrement the unsigned 32-bit counter
active_threads.  Returns the freed list and the new counter. -/
def release_TCB (freed : List Nat) (active : Nat) (t : TCB) :
    List Nat × Nat :=
  (freed ++ [t.tid], (active + (2 ^ 32 - 1)) % 2 ^ 32)

/-- State touched by the gain phase: the incoming and outgoing TCBs, the
ready queues, per-PCB thread_count, per-PTCB thread_exited, the
active_threads counter and the list of freed blocks. -/
structure GainState where
  current : TCB
  prev : TCB
  queues : List (List TCB)
  pcb_count : Nat → Int
  ptcb_exited : Nat → Bool
  active_threads : Nat
  freed : List Nat

/-- Modelled from the spec: kernel_proc.h is not in the repository
snapshot, so the accessor CURPROC is taken from the description in
sections 3 and 6: CURTHREAD is the per-core current thread, owner_pcb
is the back-reference of a TCB to its owning process, and CURPROC is
the process of the current thread, i.e. CURTHREAD->owner_pcb.  Inside
gain, CURTHREAD is the incoming thread current. -/
def CURPROC_of (g : GainState) : Nat := g.current.owner_pcb

/-- The lock-protected bookkeeping of gain, lines 548-583: mark current
RUNNING/CTX_DIRTY; when prev differs from current, set prev CTX_CLEAN
and dispatch on its state: READY non-idle threads are requeued, EXITED
threads notify their PTCB, CURPROC->thread_count is decremented and the
block is released, STOPPED threads are left alone; INIT or RUNNING is
the assert(0) of line 579, modelled as none. -/
def gain (g : GainState) : Option GainState :=
  let cur : TCB :=
    { g.current with state := Thread_state.RUNNING,
                     phase := Thread_phase.CTX_DIRTY }
  if g.current.tid = g.prev.tid then
    some { g with current := cur }
  else
    let prev1 : TCB := { g.prev with phase := Thread_phase.CTX_CLEAN }
    match prev1.state with
    | Thread_state.READY =>
      some { g with current := cur, prev := prev1,
                    queues :=
                      if prev1.ttype ≠ Thread_type.IDLE_THREAD then
                        queuePushBack g.queues prev1.priority.toNat prev1
                      else g.queues }
    | Thread_state.EXITED =>
      let ex : Nat → Bool :=
        match prev1.owner_ptcb with
        | some pid => fun q => if q = pid then true else g.ptcb_exited q
        | none => g.ptcb_exited
      let counts : Nat → Int :=
        fun p => if p = CURPROC_of { g with current := cur } then
                   g.pcb_count p - 1
                 else g.pcb_count p
      let rel := release_TCB g.freed g.active_threads prev1
      some { g with current := cur, prev := prev1, ptcb_exited := ex,
                    pcb_count := counts, freed := rel.1,
                    active_threads := rel.2 }
    | Thread_state.STOPPED =>
      some { g with current := cur, prev := prev1 }
    | _ => none

/-- Multiset of thread identities held in a family of ready queues. -/
def tidMS (qs : List (List TCB)) : Multiset Nat :=
  ((qs.map (fun l => l.map TCB.tid)).flatten : List Nat)

/-- Concrete inputs used by witnesses. -/
def c7t : TCB :=
  ⟨1, Thread_type.NORMAL_THREAD, Thread_state.STOPPED, Thread_phase.CTX_CLEAN,
    none, 4, false, 4, 1, none⟩

def c7a : TCB :=
  ⟨2, Thread_type.NORMAL_THREAD, Thread_state.STOPPED, Thread_phase.CTX_CLEAN,
    some 12, 4, false, 4, 1, none⟩

def c7b : TCB :=
  ⟨3, Thread_type.NORMAL_THREAD, Thread_state.STOPPED, Thread_phase.CTX_CLEAN,
    some 15, 4, false, 4, 1, none⟩

def c8t : TCB :=
  ⟨5, Thread_type.NORMAL_THREAD, Thread_state.STOPPED, Thread_phase.CTX_CLEAN,
    some 20, 2, false, 2, 1, none⟩

def c8tl : List TCB := [c8t]

def c8qs : List (List TCB) := [[], [], [], [], []]

def c3t : TCB :=
  ⟨9, Thread_type.NORMAL_THREAD, Thread_state.RUNNING, Thread_phase.CTX_DIRTY,
    none, 3, false, 3, 1, some 1⟩

/-- C1 failing input: every ready queue empty and an empty TIMEOUT_LIST
(PRIORITY_LISTS = 5, MAX_CONGESTION = 3, clock 0, cc = fs = 0). -/
def c1s : SchedState := ⟨[[], [], [], [], []], [], 0, 0⟩

/-- C2 failing input, the exiting predecessor: owned by process 1, with a
user-visible PTCB of id 7. -/
def c2prev : TCB :=
  ⟨1, Thread_type.NORMAL_THREAD, Thread_state.EXITED, Thread_phase.CTX_DIRTY,
    none, 4, false, 4, 1, some 7⟩

/-- C2 failing input, the incoming thread: owned by process 2. -/
def c2cur : TCB :=
  ⟨2, Thread_type.NORMAL_THREAD, Thread_state.READY, Thread_phase.CTX_CLEAN,
    none, 4, false, 4, 2, some 9⟩

/-- C2 failing input: process 1 has thread_count 5, process 2 has 3,
active_threads = 3, nothing freed yet. -/
def c2g : GainState :=
  ⟨c2cur, c2prev, [[], [], [], [], []],
    fun p => if p = 1 then 5 else if p = 2 then 3 else 0,
    fun _ => false, 3, []⟩

def c4a : TCB :=
  ⟨11, Thread_type.NORMAL_THREAD, Thread_state.READY, Thread_phase.CTX_CLEAN,
    none, 0, false, 0, 1, none⟩

def c4b : TCB :=
  ⟨12, Thread_type.NORMAL_THREAD, Thread_state.READY, Thread_phase.CTX_CLEAN,
    none, 1, false, 1, 1, none⟩

def c4c : TCB :=
  ⟨13, Thread_type.NORMAL_THREAD, Thread_state.READY, Thread_phase.CTX_CLEAN,
    none, 2, false, 2, 1, none⟩

def c4s : SchedState := ⟨[[c4a], [c4b], [c4c]], [], 0, 0⟩

/-- The pop performed by sched_queue_select: the scan of lines 318-322
applied to the queues left by the timeout drain. -/
def selPop (P : Nat) (curtime : Nat) (s : SchedState) :
    Option (TCB × Nat × List (List TCB)) :=
  scanPopAux (drainT curtime s.timeouts s.queues).2 (P - 1)

def c6s : SchedState := ⟨[[c4a], [], [c4c]], [], 2, 0⟩

/-- C9 witness input: a sleeper with an expired wakeup time. -/
def c9e : TCB :=
  ⟨21, Thread_type.NORMAL_THREAD, Thread_state.STOPPED, Thread_phase.CTX_CLEAN,
    some 5, 1, false, 1, 1, none⟩

def c9s : SchedState := ⟨[[], [], [c4c]], [c9e], 0, 0⟩

def c5steps : List (Nat × (SchedState → SchedState)) :=
  List.replicate 500 (0, id)

def c5s0 : SchedState := ⟨[[], [], []], [], 0, 0⟩

-- THEOREMS BELOW THIS LINE --

theorem getD_set_self {α : Type _} (l : List α) (i : Nat) (x d : α)
    (h : i < l.length) : (l.set i x).getD i d = x := by
  induction l generalizing i with
  | nil => simp at h
  | cons a t ih =>
    cases i with
    | zero => rfl
    | succ n => simpa using ih n (by simpa using h)

theorem getD_set_ne {α : Type _} (l : List α) (i j : Nat) (x d : α)
    (h : i ≠ j) : (l.set i x).getD j d = l.getD j d := by
  induction l generalizing i j with
  | nil => simp
  | cons a t ih =>
    cases i with
    | zero =>
      cases j with
      | zero => exact absurd rfl h
      | succ m => simp
    | succ n =>
      cases j with
      | zero => simp
      | succ m => simpa using ih n m (by omega)

theorem wkLtB_asymm {a b : Option Nat} (h : wkLtB a b = true) :
    wkLtB b a = false := by
  cases a <;> cases b <;> simp [wkLtB] at * <;> omega

theorem wkLeB_of_lt {a b : Option Nat} (h : wkLtB a b = true) :
    wkLeB a b = true := by
  simp [wkLeB, wkLtB_asymm h]

theorem wkLeB_of_not_lt {a b : Option Nat} (h : wkLtB a b = false) :
    wkLeB b a = true := by
  simp [wkLeB, h]

theorem wkLeB_trans {a b c : Option Nat} (h1 : wkLeB a b = true)
    (h2 : wkLeB b c = true) : wkLeB a c = true := by
  cases a <;> cases b <;> cases c <;>
    simp [wkLeB, wkLtB] at * <;> omega

theorem sortedWkB_cons {a : TCB} {l : List TCB} :
    sortedWkB (a :: l) = true ↔
      ((∀ b, l.head? = some b → wkLeB a.wakeup_time b.wakeup_time = true) ∧
        sortedWkB l = true) := by
  cases l with
  | nil => simp [sortedWkB]
  | cons b r =>
    constructor
    · intro h
      have h' := h
      simp only [sortedWkB, Bool.and_eq_true] at h'
      exact ⟨fun c hc => by cases hc; exact h'.1, h'.2⟩
    · intro ⟨h1, h2⟩
      simp only [sortedWkB, Bool.and_eq_true]
      exact ⟨h1 b rfl, h2⟩

theorem sortedWkB_head_le {a : TCB} {l : List TCB}
    (h : sortedWkB (a :: l) = true) :
    ∀ x ∈ l, wkLeB a.wakeup_time x.wakeup_time = true := by
  induction l generalizing a with
  | nil => simp
  | cons b r ih =>
    have h1 : wkLeB a.wakeup_time b.wakeup_time = true :=
      (sortedWkB_cons.mp h).1 b rfl
    have h2 : sortedWkB (b :: r) = true := (sortedWkB_cons.mp h).2
    intro x hx
    rcases List.mem_cons.mp hx with rfl | hx
    · exact h1
    · exact wkLeB_trans h1 (ih h2 x hx)

theorem timeoutInsert_eq (t : TCB) (tl : List TCB) :
    timeoutInsert t tl =
      tl.takeWhile (fun n => !(wkLtB t.wakeup_time n.wakeup_time)) ++
        t :: tl.dropWhile (fun n => !(wkLtB t.wakeup_time n.wakeup_time)) := by
  induction tl with
  | nil => rfl
  | cons n rest ih =>
    by_cases h : wkLtB t.wakeup_time n.wakeup_time = true
    · simp [timeoutInsert, h, List.takeWhile_cons, List.dropWhile_cons]
    · simp only [Bool.not_eq_true] at h
      simp [timeoutInsert, h, List.takeWhile_cons, List.dropWhile_cons, ih]

theorem head_dropWhile_false {α : Type _} {p : α → Bool} {l : List α}
    {a : α} (h : (l.dropWhile p).head? = some a) : p a = false := by
  induction l with
  | nil => simp [List.dropWhile] at h
  | cons b r ih =>
    by_cases hb : p b = true
    · rw [List.dropWhile_cons, if_pos hb] at h
      exact ih h
    · simp only [Bool.not_eq_true] at hb
      rw [List.dropWhile_cons, if_neg (by simp [hb])] at h
      cases h
      exact hb

theorem timeoutInsert_sorted {t : TCB} {tl : List TCB}
    (h : sortedWkB tl = true) : sortedWkB (timeoutInsert t tl) = true := by
  induction tl with
  | nil => rfl
  | cons n rest ih =>
    have htail : sortedWkB rest = true := (sortedWkB_cons.mp h).2
    by_cases hc : wkLtB t.wakeup_time n.wakeup_time = true
    · rw [timeoutInsert, if_pos hc]
      exact sortedWkB_cons.mpr
        ⟨fun b hb => by cases hb; exact wkLeB_of_lt hc, h⟩
    · simp only [Bool.not_eq_true] at hc
      rw [timeoutInsert, if_neg (by simp [hc])]
      refine sortedWkB_cons.mpr ⟨?_, ih htail⟩
      intro b hb
      cases rest with
      | nil =>
        simp [timeoutInsert] at hb
        cases hb
        exact wkLeB_of_not_lt hc
      | cons m r2 =>
        by_cases hc2 : wkLtB t.wakeup_time m.wakeup_time = true
        · rw [timeoutInsert, if_pos hc2] at hb
          cases hb
          exact wkLeB_of_not_lt hc
        · simp only [Bool.not_eq_true] at hc2
          rw [timeoutInsert, if_neg (by simp [hc2])] at hb
          cases hb
          exact (sortedWkB_cons.mp h).1 b rfl

/-- C7: sched_register_timeout with a real timeout sets wakeup_time to
bios_clock() + timeout and splices the node into TIMEOUT_LIST right
before the first entry with a strictly later wakeup time (so after all
entries with an equal one, i.e. stable); every entry before the new node
has wakeup time ≤ the new one and the entry right after it is strictly
later; sortedness of TIMEOUT_LIST is preserved, and a call with
timeout = NO_TIMEOUT changes nothing. -/
theorem sched_register_timeout_spec (curtime : Nat) (t : TCB)
    (tl : List TCB) :
    (sched_register_timeout curtime t none tl = (t, tl)) ∧
    (∀ d : Nat,
      ((sched_register_timeout curtime t (some d) tl).1).wakeup_time =
          some (curtime + d) ∧
      (sched_register_timeout curtime t (some d) tl).2 =
        tl.takeWhile (fun n => !(wkLtB (some (curtime + d)) n.wakeup_time)) ++
          (sched_register_timeout curtime t (some d) tl).1 ::
            tl.dropWhile
              (fun n => !(wkLtB (some (curtime + d)) n.wakeup_time)) ∧
      (∀ n ∈ tl.takeWhile
          (fun n => !(wkLtB (some (curtime + d)) n.wakeup_time)),
          wkLeB n.wakeup_time (some (curtime + d)) = true) ∧
      (∀ n0, (tl.dropWhile
          (fun n => !(wkLtB (some (curtime + d)) n.wakeup_time))).head? =
            some n0 →
          wkLtB (some (curtime + d)) n0.wakeup_time = true) ∧
      (sortedWkB tl = true →
        sortedWkB (sched_register_timeout curtime t (some d) tl).2 = true)) := by
  refine ⟨rfl, fun d => ⟨rfl, ?_, ?_, ?_, ?_⟩⟩
  · exact timeoutInsert_eq _ tl
  · intro n hn
    have := List.mem_takeWhile_imp hn
    simp only [Bool.not_eq_true'] at this
    exact wkLeB_of_not_lt this
  · intro n0 h0
    have := head_dropWhile_false h0
    simpa using this
  · intro hs
    exact timeoutInsert_sorted hs

theorem sched_register_timeout_spec_witness :
    sortedWkB [c7a, c7b] = true ∧
    sortedWkB (sched_register_timeout 10 c7t (some 5) [c7a, c7b]).2 = true ∧
    (sched_register_timeout 10 c7t (some 5) [c7a, c7b]).2 =
      [c7a, c7b, { c7t with wakeup_time := some 15 }] := by
  refine ⟨by decide, ?_, by decide⟩
  exact ((sched_register_timeout_spec 10 c7t [c7a, c7b]).2 5).2.2.2.2 (by decide)

/-- C8: wakeup returns true exactly when the state at the check is
STOPPED or INIT; in that case the thread is made READY by
sched_make_ready, its node is removed from TIMEOUT_LIST and wakeup_time
cleared when a timeout was set, and it is enqueued into SCHED[priority]
exactly when the phase is CTX_CLEAN; when it returns false nothing is
modified. -/
theorem wakeup_spec (t : TCB) (tl : List TCB) (qs : List (List TCB)) :
    ((wakeup t tl qs).1 = true ↔
      (t.state = Thread_state.STOPPED ∨ t.state = Thread_state.INIT)) ∧
    ((wakeup t tl qs).1 = true →
      ((wakeup t tl qs).2.1.state = Thread_state.READY ∧
       (wakeup t tl qs).2.1.wakeup_time = none ∧
       (t.wakeup_time ≠ none →
         (wakeup t tl qs).2.2.1 = tl.eraseP (fun x => x.tid == t.tid)) ∧
       (t.wakeup_time = none → (wakeup t tl qs).2.2.1 = tl) ∧
       (t.phase = Thread_phase.CTX_CLEAN →
         (wakeup t tl qs).2.2.2 =
           queuePushBack qs t.priority.toNat (readyT t)) ∧
       (t.phase = Thread_phase.CTX_DIRTY → (wakeup t tl qs).2.2.2 = qs))) ∧
    ((wakeup t tl qs).1 = false → (wakeup t tl qs).2 = (t, tl, qs)) := by
  by_cases hs : t.state = Thread_state.STOPPED ∨ t.state = Thread_state.INIT
  · refine ⟨by simp [wakeup, hs], ?_, ?_⟩
    · intro _
      obtain ⟨tid, ty, st, ph, wk, pr, mf, pq, op, opt⟩ := t
      cases wk <;> cases ph <;>
        simp_all [wakeup, sched_make_ready, readyT, hs]
    · intro hfalse
      simp [wakeup, hs] at hfalse
  · refine ⟨by simp [wakeup, hs], ?_, ?_⟩
    · intro htrue
      simp [wakeup, hs] at htrue
    · intro _
      simp [wakeup, hs]

theorem wakeup_spec_witness :
    (wakeup c8t c8tl c8qs).1 = true ∧
    (wakeup c8t c8tl c8qs).2.1.state = Thread_state.READY ∧
    (wakeup c8t c8tl c8qs).2.2.1 = [] ∧
    (wakeup c8t c8tl c8qs).2.2.2 = [[], [], [readyT c8t], [], []] := by
  have h := wakeup_spec c8t c8tl c8qs
  have h1 : (wakeup c8t c8tl c8qs).1 = true := h.1.mpr (Or.inl rfl)
  have h2 := h.2.1 h1
  refine ⟨h1, h2.1, ?_, ?_⟩
  · rw [h2.2.2.1 (by decide)]
    decide
  · rw [h2.2.2.2.2.1 rfl]
    decide

theorem iterateN_fixed {α : Type _} {f : α → α} {x : α} (h : f x = x) :
    ∀ n, iterateN f n x = x := by
  intro n
  induction n with
  | zero => rfl
  | succ m ih => rw [iterateN, h, ih]

theorem yieldAdjust_mutex_first (TOP : Int) (hT : 0 ≤ TOP) (t : TCB)
    (hflag : t.mutex_flag = false) :
    yieldAdjust TOP SCHED_CAUSE.mutex t =
      { t with prev_queue := t.priority, priority := 0, mutex_flag := true } := by
  simp [yieldAdjust, hflag, LOWEST_PRIORITY, not_lt.mpr hT]

theorem yieldAdjust_mutex_fixed (TOP : Int) (hT : 0 ≤ TOP) (u : TCB)
    (hflag : u.mutex_flag = true) (hpr : u.priority = 0) :
    yieldAdjust TOP SCHED_CAUSE.mutex u = u := by
  obtain ⟨tid, ty, st, ph, wk, pr, mf, pq, op, opt⟩ := u
  simp only at hflag hpr
  subst hflag hpr
  simp [yieldAdjust, LOWEST_PRIORITY, not_lt.mpr hT]

theorem yieldAdjust_restore (TOP : Int) (u : TCB) (c : SCHED_CAUSE)
    (hflag : u.mutex_flag = true) (hc : c ≠ SCHED_CAUSE.mutex) :
    (yieldAdjust TOP c u).priority = u.prev_queue ∧
    (yieldAdjust TOP c u).mutex_flag = false := by
  cases c <;> simp [yieldAdjust, hflag, LOWEST_PRIORITY] <;>
    split_ifs <;> simp_all

/-- C3: a SCHED_MUTEX yield of a thread whose mutex_flag is clear records
prev_queue = priority, demotes the thread to LOWEST_PRIORITY and sets
mutex_flag; any number of further SCHED_MUTEX yields leave the TCB
unchanged (in particular prev_queue keeps the value saved at the first
one); the first subsequent yield with any other cause, after its
per-cause adjustment and the clamp, restores priority to that saved
prev_queue and clears mutex_flag. -/
theorem yield_mutex_reversible (TOP : Int) (hT : 0 ≤ TOP) (t : TCB)
    (hflag : t.mutex_flag = false) (n : Nat) (c : SCHED_CAUSE)
    (hc : c ≠ SCHED_CAUSE.mutex) :
    (yieldAdjust TOP SCHED_CAUSE.mutex t).prev_queue = t.priority ∧
    (yieldAdjust TOP SCHED_CAUSE.mutex t).priority = LOWEST_PRIORITY ∧
    (yieldAdjust TOP SCHED_CAUSE.mutex t).mutex_flag = true ∧
    iterateN (yieldAdjust TOP SCHED_CAUSE.mutex) n
        (yieldAdjust TOP SCHED_CAUSE.mutex t) =
      yieldAdjust TOP SCHED_CAUSE.mutex t ∧
    (yieldAdjust TOP c
        (iterateN (yieldAdjust TOP SCHED_CAUSE.mutex) n
          (yieldAdjust TOP SCHED_CAUSE.mutex t))).priority = t.priority ∧
    (yieldAdjust TOP c
        (iterateN (yieldAdjust TOP SCHED_CAUSE.mutex) n
          (yieldAdjust TOP SCHED_CAUSE.mutex t))).mutex_flag = false := by
  have h1 := yieldAdjust_mutex_first TOP hT t hflag
  have hfix : yieldAdjust TOP SCHED_CAUSE.mutex
      (yieldAdjust TOP SCHED_CAUSE.mutex t) =
      yieldAdjust TOP SCHED_CAUSE.mutex t := by
    rw [h1]
    exact yieldAdjust_mutex_fixed TOP hT _ rfl rfl
  have hiter := iterateN_fixed hfix n
  have hres := yieldAdjust_restore TOP (yieldAdjust TOP SCHED_CAUSE.mutex t)
    c (by rw [h1]) hc
  refine ⟨by rw [h1], by rw [h1]; rfl, by rw [h1], hiter, ?_, ?_⟩
  · rw [hiter, hres.1, h1]
  · rw [hiter, hres.2]

theorem yield_mutex_reversible_witness :
    c3t.mutex_flag = false ∧ SCHED_CAUSE.quantum ≠ SCHED_CAUSE.mutex ∧
    (yieldAdjust 4 SCHED_CAUSE.quantum
        (iterateN (yieldAdjust 4 SCHED_CAUSE.mutex) 2
          (yieldAdjust 4 SCHED_CAUSE.mutex c3t))).priority = 3 ∧
    (yieldAdjust 4 SCHED_CAUSE.quantum
        (iterateN (yieldAdjust 4 SCHED_CAUSE.mutex) 2
          (yieldAdjust 4 SCHED_CAUSE.mutex c3t))).mutex_flag = false := by
  have h := yield_mutex_reversible 4 (by decide) c3t rfl 2
    SCHED_CAUSE.quantum (by decide)
  exact ⟨rfl, by decide, h.2.2.2.2.1, h.2.2.2.2.2⟩

/-- C1: with every ready queue empty and the timeout drain waking no
thread, the scan pops nothing and sel stays the null pointer, so the
return statement of line 352 (return sel->tcb) dereferences NULL instead
of returning NULL as the spec and the callers require. -/
theorem select_null_deref_on_empty :
    selectDerefsNull 5 3 0 c1s = true ∧
    (sched_queue_select 5 3 0 c1s).sel = none := ⟨rfl, rfl⟩

/-- C2: evaluation of the gain phase at a predecessor that EXITED while
owned by process 1 (thread_count 5) when the incoming thread belongs to
process 2 (thread_count 3): the PTCB is flagged (true), the block is
released (freed = [1]) and active_threads drops from 3 to 2 as the claim
says, but thread_count is decremented on CURPROC - the incoming
thread's process 2 (3 to 2) - while the count of process 1, the process
owning prev, stays at 5, contradicting the claim. -/
theorem gain_exited_curproc_bug :
    (gain c2g).map
      (fun g => (g.pcb_count 1, g.pcb_count 2, g.ptcb_exited 7,
                 g.freed, g.active_threads)) =
      some (5, 2, true, [1], 2) := by rfl

theorem drainInto_eq (dst src : List TCB) :
    drainInto dst src = dst ++ src.map bump1 := by
  induction src generalizing dst with
  | nil => simp [drainInto]
  | cons t rest ih => simp [drainInto, bump1, ih]

theorem length_stepAt (qs : List (List TCB)) (i : Nat) :
    (stepAt qs i).length = qs.length := by
  simp [stepAt]

theorem length_boostAux (i : Nat) :
    ∀ qs : List (List TCB), (boostAux qs i).length = qs.length := by
  induction i with
  | zero => intro qs; simp [boostAux, length_stepAt]
  | succ n ih => intro qs; rw [boostAux, ih, length_stepAt]

theorem stepAt_getD_sameindex (qs : List (List TCB)) (i : Nat)
    (h : i < qs.length) : (stepAt qs i).getD i [] = [] := by
  exact getD_set_self _ _ _ _ (by simpa using h)

theorem stepAt_getD_succ (qs : List (List TCB)) (i : Nat)
    (h : i + 1 < qs.length) :
    (stepAt qs i).getD (i + 1) [] =
      qs.getD (i + 1) [] ++ (qs.getD i []).map bump1 := by
  rw [stepAt, getD_set_ne _ _ _ _ _ (by omega),
    getD_set_self _ _ _ _ (by simpa using h), drainInto_eq]

theorem stepAt_getD_other (qs : List (List TCB)) (i j : Nat)
    (h1 : j ≠ i) (h2 : j ≠ i + 1) :
    (stepAt qs i).getD j [] = qs.getD j [] := by
  rw [stepAt, getD_set_ne _ _ _ _ _ (by omega),
    getD_set_ne _ _ _ _ _ (by omega)]

theorem boostAux_spec (i : Nat) :
    ∀ qs : List (List TCB), i + 1 < qs.length →
      (boostAux qs i).getD 0 [] = [] ∧
      (∀ j, 1 ≤ j → j ≤ i →
        (boostAux qs i).getD j [] = (qs.getD (j - 1) []).map bump1) ∧
      (boostAux qs i).getD (i + 1) [] =
        qs.getD (i + 1) [] ++ (qs.getD i []).map bump1 ∧
      (∀ j, i + 1 < j → (boostAux qs i).getD j [] = qs.getD j []) := by
  induction i with
  | zero =>
    intro qs h
    refine ⟨stepAt_getD_sameindex qs 0 (by omega), ?_, ?_, ?_⟩
    · intro j h1 h2; omega
    · exact stepAt_getD_succ qs 0 h
    · intro j hj; exact stepAt_getD_other qs 0 j (by omega) (by omega)
  | succ n ih =>
    intro qs h
    have hlen : n + 1 < (stepAt qs (n + 1)).length := by
      rw [length_stepAt]; omega
    have hr := ih (stepAt qs (n + 1)) hlen
    rw [boostAux]
    refine ⟨hr.1, ?_, ?_, ?_⟩
    · intro j h1 h2
      rcases Nat.lt_or_ge j (n + 1) with hj | hj
      · rw [hr.2.1 j h1 (by omega),
          stepAt_getD_other qs (n + 1) (j - 1) (by omega) (by omega)]
      · have hj2 : j = n + 1 := by omega
        subst hj2
        rw [hr.2.2.1, stepAt_getD_sameindex qs (n + 1) (by omega),
          stepAt_getD_other qs (n + 1) n (by omega) (by omega)]
        simp
    · rw [hr.2.2.2 (n + 2) (by omega), stepAt_getD_succ qs (n + 1) h]
    · intro j hj
      rw [hr.2.2.2 j (by omega),
        stepAt_getD_other qs (n + 1) j (by omega) (by omega)]

theorem boostQ_spec (P : Nat) (qs : List (List TCB)) (hP : 2 ≤ P)
    (hlen : qs.length = P) :
    (boostQ P qs).getD 0 [] = [] ∧
    (∀ j, 1 ≤ j → j ≤ P - 2 →
      (boostQ P qs).getD j [] = (qs.getD (j - 1) []).map bump1) ∧
    (boostQ P qs).getD (P - 1) [] =
      qs.getD (P - 1) [] ++ (qs.getD (P - 2) []).map bump1 ∧
    (∀ j, P - 1 < j → (boostQ P qs).getD j [] = qs.getD j []) := by
  obtain ⟨n, rfl⟩ : ∃ n, P = n + 2 := ⟨P - 2, by omega⟩
  have h := boostAux_spec n qs (by omega)
  have e1 : n + 2 - 2 = n := by omega
  have e2 : n + 2 - 1 = n + 1 := by omega
  rw [show boostQ (n + 2) qs = boostAux qs n from rfl]
  refine ⟨h.1, ?_, ?_, ?_⟩
  · intro j h1 h2
    exact h.2.1 j h1 (by omega)
  · rw [e1, e2]; exact h.2.2.1
  · intro j hj
    exact h.2.2.2 j (by omega)

theorem tid_map_bump (l : List TCB) :
    (l.map bump1).map TCB.tid = l.map TCB.tid := by
  induction l with
  | nil => rfl
  | cons t rest ih => simp [bump1, ih]

theorem tidMS_cons (q : List TCB) (qs : List (List TCB)) :
    tidMS (q :: qs) = (↑(q.map TCB.tid) : Multiset Nat) + tidMS qs := by
  simp [tidMS]

theorem tidMS_set (qs : List (List TCB)) (i : Nat) (x : List TCB)
    (h : i < qs.length) :
    tidMS (qs.set i x) + (↑((qs.getD i []).map TCB.tid) : Multiset Nat) =
      tidMS qs + (↑(x.map TCB.tid) : Multiset Nat) := by
  induction qs generalizing i with
  | nil => simp at h
  | cons q rest ih =>
    cases i with
    | zero =>
      simp only [List.set, List.getD_cons_zero, tidMS_cons]
      abel
    | succ m =>
      have hm : m < rest.length := by simpa using h
      simp only [List.set, List.getD_cons_succ, tidMS_cons]
      have := ih m hm
      rw [add_assoc, this, add_assoc]

theorem tidMS_stepAt (qs : List (List TCB)) (i : Nat)
    (h : i + 1 < qs.length) : tidMS (stepAt qs i) = tidMS qs := by
  have h0 : i < qs.length := Nat.lt_of_succ_lt h
  have hA := tidMS_set qs (i + 1)
    (drainInto (qs.getD (i + 1) []) (qs.getD i [])) h
  have hB := tidMS_set
    (qs.set (i + 1) (drainInto (qs.getD (i + 1) []) (qs.getD i []))) i
    ([] : List TCB) (by simpa using h0)
  rw [getD_set_ne qs (i + 1) i _ _ (by omega)] at hB
  rw [drainInto_eq, List.map_append, tid_map_bump] at hA
  simp only [List.map_nil, Multiset.coe_nil, add_zero] at hB
  rw [stepAt, drainInto_eq]
  have key : tidMS ((qs.set (i + 1)
        (qs.getD (i + 1) [] ++ (qs.getD i []).map bump1)).set i []) +
      ((↑((qs.getD i []).map TCB.tid) : Multiset Nat) +
        (↑((qs.getD (i + 1) []).map TCB.tid) : Multiset Nat)) =
      tidMS qs +
      ((↑((qs.getD i []).map TCB.tid) : Multiset Nat) +
        (↑((qs.getD (i + 1) []).map TCB.tid) : Multiset Nat)) := by
    rw [← add_assoc]
    rw [drainInto_eq] at hB
    rw [hB, hA, ← Multiset.coe_add]
    abel
  exact add_right_cancel key

theorem tidMS_boostAux (i : Nat) :
    ∀ qs : List (List TCB), i + 1 < qs.length →
      tidMS (boostAux qs i) = tidMS qs := by
  induction i with
  | zero => intro qs h; exact tidMS_stepAt qs 0 h
  | succ n ih =>
    intro qs h
    rw [boostAux, ih (stepAt qs (n + 1)) (by rw [length_stepAt]; omega),
      tidMS_stepAt qs (n + 1) h]

theorem tidMS_boostQ (P : Nat) (qs : List (List TCB)) (hP : 2 ≤ P)
    (hlen : qs.length = P) : tidMS (boostQ P qs) = tidMS qs := by
  obtain ⟨n, rfl⟩ : ∃ n, P = n + 2 := ⟨P - 2, by omega⟩
  exact tidMS_boostAux n qs (by omega)

/-- C4: boost resets counter_congestion to 0, keeps the multiset of
thread identities held in the union of the ready queues unchanged,
leaves SCHED[LOWEST_PRIORITY] empty, keeps every member of
SCHED[TOP_PRIORITY] (with its priority untouched), and moves every TCB
of a non-top queue one level up with its priority incremented by exactly
one. -/
theorem boost_spec (P : Nat) (s : SchedState) (hP : 2 ≤ P)
    (hlen : s.queues.length = P) :
    (boost P s).cc = 0 ∧
    tidMS (boost P s).queues = tidMS s.queues ∧
    (boost P s).queues.getD 0 [] = [] ∧
    (∀ t ∈ s.queues.getD (P - 1) [],
       t ∈ (boost P s).queues.getD (P - 1) []) ∧
    (∀ p, p < P - 1 → ∀ t ∈ s.queues.getD p [],
       bump1 t ∈ (boost P s).queues.getD (p + 1) [] ∧
       (bump1 t).priority = t.priority + 1) := by
  have h := boostQ_spec P s.queues hP hlen
  have hq : (boost P s).queues = boostQ P s.queues := rfl
  refine ⟨rfl, ?_, ?_, ?_, ?_⟩
  · rw [hq]; exact tidMS_boostQ P s.queues hP hlen
  · rw [hq]; exact h.1
  · intro t ht
    rw [hq, h.2.2.1]
    exact List.mem_append_left _ ht
  · intro p hp t ht
    refine ⟨?_, rfl⟩
    rw [hq]
    by_cases hp2 : p + 1 ≤ P - 2
    · rw [h.2.1 (p + 1) (by omega) hp2]
      simpa using List.mem_map_of_mem bump1 ht
    · have hpeq : p = P - 2 := by omega
      subst hpeq
      have e : P - 2 + 1 = P - 1 := by omega
      rw [e, h.2.2.1]
      exact List.mem_append_right _ (List.mem_map_of_mem bump1 ht)

theorem boost_spec_witness :
    (2 ≤ 3 ∧ c4s.queues.length = 3) ∧
    (boost 3 c4s).cc = 0 ∧
    tidMS (boost 3 c4s).queues = tidMS c4s.queues ∧
    (boost 3 c4s).queues.getD 0 [] = [] ∧
    bump1 c4b ∈ (boost 3 c4s).queues.getD 2 [] := by
  have h := boost_spec 3 c4s (by omega) rfl
  exact ⟨⟨by omega, rfl⟩, h.1, h.2.1, h.2.2.1,
    (h.2.2.2.2 1 (by omega) c4b (by decide)).1⟩

/-- C10: boost preserves relative FIFO order and moves nothing more than
one level: for p + 1 below TOP_PRIORITY the list SCHED[p+1] after the
boost is exactly the former SCHED[p] (same threads in the same order,
priorities incremented), and SCHED[TOP_PRIORITY] is its former content
followed by the former SCHED[TOP_PRIORITY - 1] in original order. -/
theorem boost_order_preserving (P : Nat) (qs : List (List TCB)) (hP : 2 ≤ P)
    (hlen : qs.length = P) :
    (∀ p, p + 1 < P - 1 →
      (boostQ P qs).getD (p + 1) [] = (qs.getD p []).map bump1) ∧
    (boostQ P qs).getD (P - 1) [] =
      qs.getD (P - 1) [] ++ (qs.getD (P - 2) []).map bump1 ∧
    (∀ p, p + 1 < P - 1 →
      ((boostQ P qs).getD (p + 1) []).map TCB.tid =
        (qs.getD p []).map TCB.tid) ∧
    ((boostQ P qs).getD (P - 1) []).map TCB.tid =
      (qs.getD (P - 1) []).map TCB.tid ++ (qs.getD (P - 2) []).map TCB.tid := by
  have h := boostQ_spec P qs hP hlen
  have hmid : ∀ p, p + 1 < P - 1 →
      (boostQ P qs).getD (p + 1) [] = (qs.getD p []).map bump1 := by
    intro p hp
    rw [h.2.1 (p + 1) (by omega) (by omega)]
    simp
  refine ⟨hmid, h.2.2.1, ?_, ?_⟩
  · intro p hp
    rw [hmid p hp, tid_map_bump]
  · rw [h.2.2.1, List.map_append, tid_map_bump]

theorem boost_order_preserving_witness :
    (2 ≤ 3 ∧ ([[c4a], [c4b], [c4c]] : List (List TCB)).length = 3) ∧
    (boostQ 3 [[c4a], [c4b], [c4c]]).getD 2 [] = [c4c, bump1 c4b] ∧
    ((boostQ 3 [[c4a], [c4b], [c4c]]).getD 2 []).map TCB.tid = [13, 12] := by
  have h := boost_order_preserving 3 [[c4a], [c4b], [c4c]] (by omega) rfl
  refine ⟨⟨by omega, rfl⟩, ?_, ?_⟩
  · rw [h.2.1]; decide
  · rw [h.2.2.2]; decide

theorem scanPopAux_zero (qs : List (List TCB)) :
    scanPopAux qs 0 =
      (match qs.getD 0 [] with
       | [] => none
       | t :: r => some (t, 0, qs.set 0 r)) := rfl

theorem scanPopAux_succ (qs : List (List TCB)) (i : Nat) :
    scanPopAux qs (i + 1) =
      (match qs.getD (i + 1) [] with
       | [] => scanPopAux qs i
       | t :: r => some (t, i + 1, qs.set (i + 1) r)) := rfl

theorem belowDeltaAux_zero (qs : List (List TCB)) :
    belowDeltaAux qs 0 = (if qs.getD 0 [] = [] then -1 else 1) := rfl

theorem belowDeltaAux_succ (qs : List (List TCB)) (j : Nat) :
    belowDeltaAux qs (j + 1) =
      (if qs.getD (j + 1) [] = [] then belowDeltaAux qs j else 1) := rfl

theorem scanPopAux_none (qs : List (List TCB)) :
    ∀ n : Nat, (scanPopAux qs n = none ↔ ∀ j ≤ n, qs.getD j [] = []) := by
  intro n
  induction n with
  | zero =>
    constructor
    · intro h j hj
      have hj0 : j = 0 := by omega
      subst hj0
      cases hq : qs.getD 0 [] with
      | nil => rfl
      | cons t r =>
        rw [scanPopAux_zero, hq] at h
        exact Option.noConfusion h
    · intro h
      rw [scanPopAux_zero, h 0 (le_refl 0)]
  | succ m ih =>
    constructor
    · intro h j hj
      cases hq : qs.getD (m + 1) [] with
      | nil =>
        rw [scanPopAux_succ, hq] at h
        have h' : scanPopAux qs m = none := h
        rcases Nat.lt_or_ge j (m + 1) with hc | hc
        · exact ih.mp h' j (by omega)
        · have : j = m + 1 := by omega
          subst this; exact hq
      | cons t r =>
        rw [scanPopAux_succ, hq] at h
        exact Option.noConfusion h
    · intro h
      rw [scanPopAux_succ, h (m + 1) (le_refl _)]
      exact ih.mpr (fun j hj => h j (by omega))

theorem scanPopAux_some (qs : List (List TCB)) :
    ∀ (n : Nat) (t : TCB) (i : Nat) (q2 : List (List TCB)),
      scanPopAux qs n = some (t, i, q2) →
      i ≤ n ∧ (∃ r, qs.getD i [] = t :: r ∧ q2 = qs.set i r) ∧
        ∀ j, i < j → j ≤ n → qs.getD j [] = [] := by
  intro n
  induction n with
  | zero =>
    intro t i q2 h
    cases hq : qs.getD 0 [] with
    | nil =>
      rw [scanPopAux_zero, hq] at h
      exact Option.noConfusion h
    | cons t0 r =>
      rw [scanPopAux_zero, hq] at h
      have h' : some (t0, 0, qs.set 0 r) = some (t, i, q2) := h
      cases h'
      exact ⟨le_refl 0, ⟨r, hq, rfl⟩, fun j h1 h2 => by omega⟩
  | succ m ih =>
    intro t i q2 h
    cases hq : qs.getD (m + 1) [] with
    | nil =>
      rw [scanPopAux_succ, hq] at h
      have h' : scanPopAux qs m = some (t, i, q2) := h
      obtain ⟨h1, h2, h3⟩ := ih t i q2 h'
      refine ⟨by omega, h2, fun j hj1 hj2 => ?_⟩
      rcases Nat.lt_or_ge j (m + 1) with hc | hc
      · exact h3 j hj1 (by omega)
      · have : j = m + 1 := by omega
        subst this; exact hq
    | cons t0 r =>
      rw [scanPopAux_succ, hq] at h
      have h' : some (t0, m + 1, qs.set (m + 1) r) = some (t, i, q2) := h
      cases h'
      exact ⟨le_refl _, ⟨r, hq, rfl⟩, fun j h1 h2 => by omega⟩

theorem belowDeltaAux_spec (qs : List (List TCB)) :
    ∀ j : Nat,
      (belowDeltaAux qs j = 1 ∧ ∃ k, k ≤ j ∧ qs.getD k [] ≠ []) ∨
      (belowDeltaAux qs j = -1 ∧ ∀ k, k ≤ j → qs.getD k [] = []) := by
  intro j
  induction j with
  | zero =>
    by_cases hq : qs.getD 0 [] = []
    · right
      refine ⟨by rw [belowDeltaAux_zero, if_pos hq], fun k hk => ?_⟩
      have : k = 0 := by omega
      subst this; exact hq
    · left
      exact ⟨by rw [belowDeltaAux_zero, if_neg hq], ⟨0, le_refl 0, hq⟩⟩
  | succ m ih =>
    by_cases hq : qs.getD (m + 1) [] = []
    · rcases ih with ⟨h1, k, hk, hne⟩ | ⟨h1, hall⟩
      · left
        exact ⟨by rw [belowDeltaAux_succ, if_pos hq, h1], ⟨k, by omega, hne⟩⟩
      · right
        refine ⟨by rw [belowDeltaAux_succ, if_pos hq, h1], fun k hk => ?_⟩
        rcases Nat.lt_or_ge k (m + 1) with hc | hc
        · exact hall k (by omega)
        · have : k = m + 1 := by omega
          subst this; exact hq
    · left
      exact ⟨by rw [belowDeltaAux_succ, if_neg hq], ⟨m + 1, le_refl _, hq⟩⟩

theorem boostIf_fs (P : Nat) (b : Bool) (s : SchedState) :
    (boostIf P b s).fs = s.fs := by
  cases b
  · rfl
  · rfl

theorem boostIf_timeouts (P : Nat) (b : Bool) (s : SchedState) :
    (boostIf P b s).timeouts = s.timeouts := by
  cases b
  · rfl
  · rfl

theorem boostIf_cc (P : Nat) (b : Bool) (s : SchedState) :
    (boostIf P b s).cc = (if b then 0 else s.cc) := by
  cases b
  · rfl
  · rfl

theorem select_sel_eq (P : Nat) (MAXC : Int) (ct : Nat) (s : SchedState) :
    (sched_queue_select P MAXC ct s).sel =
      Option.map (fun x => x.1) (selPop P ct s) := by
  unfold sched_queue_select selPop
  dsimp only
  cases scanPopAux (drainT ct s.timeouts s.queues).2 (P - 1) with
  | none => rfl
  | some x =>
    obtain ⟨t, i, q⟩ := x
    rfl

theorem select_timeouts_eq (P : Nat) (MAXC : Int) (ct : Nat)
    (s : SchedState) :
    (sched_queue_select P MAXC ct s).st.timeouts =
      (drainT ct s.timeouts s.queues).1 := by
  exact boostIf_timeouts P _ _

theorem select_fs_eq (P : Nat) (MAXC : Int) (ct : Nat) (s : SchedState) :
    (sched_queue_select P MAXC ct s).st.fs = s.fs + 1 := by
  exact boostIf_fs P _ _

theorem boost_fs_eq (P : Nat) (s : SchedState) : (boost P s).fs = s.fs := rfl

theorem select_boosted_eq (P : Nat) (MAXC : Int) (ct : Nat)
    (s : SchedState) :
    (sched_queue_select P MAXC ct s).boosted =
      decide (MAXC ≤ selectCC P ct s ∨ s.fs + 1 = 500) := rfl

theorem select_cc_eq (P : Nat) (MAXC : Int) (ct : Nat) (s : SchedState) :
    (sched_queue_select P MAXC ct s).st.cc =
      (if (sched_queue_select P MAXC ct s).boosted then 0
       else selectCC P ct s) := by
  exact boostIf_cc P _ _

/-- C6: the congestion update of sched_queue_select: when nothing was
popped, or the pop came from SCHED[LOWEST_PRIORITY], counter_congestion
drops by one; when the pop came from a higher index, it grows by one if
some queue strictly below the pop index is non-empty and drops by one
when all of them are empty; the result is then clamped at zero, so
counter_congestion ≥ 0 holds after every call (boost, when invoked,
resets it to zero). -/
theorem select_congestion_update (P : Nat) (MAXC : Int) (ct : Nat)
    (s : SchedState) :
    (selPop P ct s = none →
      s.cc + ccDelta (selPop P ct s) = s.cc - 1) ∧
    (∀ t q2, selPop P ct s = some (t, 0, q2) →
      s.cc + ccDelta (selPop P ct s) = s.cc - 1) ∧
    (∀ t i q2, selPop P ct s = some (t, i + 1, q2) →
      ((∃ j, j ≤ i ∧ q2.getD j [] ≠ []) →
        s.cc + ccDelta (selPop P ct s) = s.cc + 1) ∧
      ((∀ j, j ≤ i → q2.getD j [] = []) →
        s.cc + ccDelta (selPop P ct s) = s.cc - 1)) ∧
    selectCC P ct s =
      (if s.cc + ccDelta (selPop P ct s) < 0 then 0
       else s.cc + ccDelta (selPop P ct s)) ∧
    0 ≤ selectCC P ct s ∧
    0 ≤ (sched_queue_select P MAXC ct s).st.cc := by
  have hccdef : selectCC P ct s =
      (if s.cc + ccDelta (selPop P ct s) < 0 then 0
       else s.cc + ccDelta (selPop P ct s)) := rfl
  have hccnn : 0 ≤ selectCC P ct s := by
    rw [hccdef]
    split
    · omega
    · omega
  refine ⟨?_, ?_, ?_, hccdef, hccnn, ?_⟩
  · intro h
    rw [h]
    simp only [ccDelta]
    omega
  · intro t q2 h
    rw [h]
    simp only [ccDelta, if_true]
    omega
  · intro t i q2 h
    constructor
    · intro ⟨j, hj, hne⟩
      rw [h]
      rcases belowDeltaAux_spec q2 i with ⟨h1, _⟩ | ⟨_, hall⟩
      · simp only [ccDelta]
        rw [if_neg (by omega), Nat.add_sub_cancel, h1]
      · exact absurd (hall j hj) hne
    · intro hall
      rw [h]
      rcases belowDeltaAux_spec q2 i with ⟨_, k, hk, hne⟩ | ⟨h1, _⟩
      · exact absurd (hall k hk) hne
      · simp only [ccDelta]
        rw [if_neg (by omega), Nat.add_sub_cancel, h1]
        omega
  · rw [select_cc_eq]
    split
    · omega
    · exact hccnn

theorem select_congestion_update_witness :
    selPop 3 0 c6s = some (c4c, 2, [[c4a], [], []]) ∧
    c6s.cc + ccDelta (selPop 3 0 c6s) = c6s.cc + 1 ∧
    0 ≤ (sched_queue_select 3 5 0 c6s).st.cc := by
  have h := select_congestion_update 3 5 0 c6s
  refine ⟨by decide, ?_, h.2.2.2.2.2⟩
  exact (h.2.2.1 c4c 1 [[c4a], [], []] (by decide)).1 ⟨0, by omega, by decide⟩

theorem make_ready_drain_agree (t : TCB) (rest : List TCB)
    (qs : List (List TCB)) (w : Nat) (hw : t.wakeup_time = some w) :
    sched_make_ready t (t :: rest) qs = (readyT t, rest, enqReady qs t) := by
  unfold sched_make_ready enqReady readyT
  rw [hw]
  simp

theorem drainT_timeouts (ct : Nat) :
    ∀ (tl : List TCB) (qs : List (List TCB)),
      (drainT ct tl qs).1 = tl.dropWhile (expiredB ct) := by
  intro tl
  induction tl with
  | nil => intro qs; rfl
  | cons t rest ih =>
    intro qs
    by_cases he : expiredB ct t = true
    · rw [drainT, if_pos he, List.dropWhile_cons, if_pos he, ih]
    · rw [drainT, if_neg he, List.dropWhile_cons,
        if_neg (by simpa using he)]

theorem unexpired_mono {ct : Nat} {u x : TCB}
    (hu : expiredB ct u = false)
    (hle : wkLeB u.wakeup_time x.wakeup_time = true) :
    expiredB ct x = false := by
  rcases hu1 : u.wakeup_time with _ | wu <;> rcases hx1 : x.wakeup_time with _ | wx <;>
    rw [hu1, hx1] at hle <;> simp [expiredB, wkLeB, wkLtB, hu1, hx1] at * <;> omega

theorem dropWhile_expired_eq_filter (ct : Nat) :
    ∀ tl : List TCB, sortedWkB tl = true →
      tl.dropWhile (expiredB ct) = tl.filter (fun t => !expiredB ct t) := by
  intro tl
  induction tl with
  | nil => intro _; rfl
  | cons t rest ih =>
    intro hs
    have htail : sortedWkB rest = true := (sortedWkB_cons.mp hs).2
    by_cases he : expiredB ct t = true
    · rw [List.dropWhile_cons, if_pos he, List.filter_cons,
        if_neg (by simp [he]), ih htail]
    · have he' : expiredB ct t = false := by simpa using he
      have hall : ∀ x ∈ rest, expiredB ct x = false := fun x hx =>
        unexpired_mono he' (sortedWkB_head_le hs x hx)
      rw [List.dropWhile_cons, if_neg (by simp [he']), List.filter_cons,
        if_pos (by simp [he'])]
      rw [List.filter_eq_self.mpr (fun a ha => by simp [hall a ha])]

theorem mem_getD_pushBack {x : TCB} (qs : List (List TCB)) (p p2 : Nat)
    (y : TCB) (h : x ∈ qs.getD p []) :
    x ∈ (queuePushBack qs p2 y).getD p [] := by
  by_cases hp : p = p2
  · subst hp
    by_cases hl : p < qs.length
    · rw [queuePushBack, getD_set_self _ _ _ _ hl]
      exact List.mem_append_left _ h
    · rw [queuePushBack, List.set_eq_of_length_le (by omega)]
      exact h
  · rw [queuePushBack, getD_set_ne _ _ _ _ _ (by omega)]
    exact h

theorem drainT_queue_stable (ct : Nat) :
    ∀ (tl : List TCB) (qs : List (List TCB)) (p : Nat) (x : TCB),
      x ∈ qs.getD p [] → x ∈ (drainT ct tl qs).2.getD p [] := by
  intro tl
  induction tl with
  | nil => intro qs p x h; exact h
  | cons t rest ih =>
    intro qs p x h
    by_cases he : expiredB ct t = true
    · rw [drainT, if_pos he]
      apply ih
      unfold enqReady
      split
      · exact mem_getD_pushBack qs p _ _ h
      · exact h
    · rw [drainT, if_neg he]
      exact h

theorem length_enqReady (qs : List (List TCB)) (t : TCB) :
    (enqReady qs t).length = qs.length := by
  unfold enqReady queuePushBack
  split
  · simp
  · rfl

theorem drainT_enqueues (ct : Nat) :
    ∀ (tl : List TCB) (qs : List (List TCB)) (t : TCB),
      t ∈ tl → expiredB ct t = true → t.phase = Thread_phase.CTX_CLEAN →
      t.priority.toNat < qs.length → sortedWkB tl = true →
      readyT t ∈ (drainT ct tl qs).2.getD t.priority.toNat [] := by
  intro tl
  induction tl with
  | nil => intro qs t hmem; exact absurd hmem (List.not_mem_nil t)
  | cons h0 rest ih =>
    intro qs t hmem he hph hpr hs
    rcases List.mem_cons.mp hmem with rfl | hmem
    · rw [drainT, if_pos he]
      apply drainT_queue_stable
      rw [enqReady, if_pos hph, queuePushBack,
        getD_set_self _ _ _ _ hpr]
      exact List.mem_append_right _ (List.mem_singleton.mpr rfl)
    · have hhead : expiredB ct h0 = true := by
        by_contra hne
        have h0f : expiredB ct h0 = false := by simpa using hne
        have := unexpired_mono h0f (sortedWkB_head_le hs t hmem)
        rw [this] at he
        exact Bool.noConfusion he
      rw [drainT, if_pos hhead]
      exact ih (enqReady qs h0) t hmem he hph
        (by rw [length_enqReady]; exact hpr) ((sortedWkB_cons.mp hs).2)

/-- C9: sched_queue_select processes the expired prefix of TIMEOUT_LIST
before the scan: with TIMEOUT_LIST sorted, the list left after the call
is exactly its unexpired entries, each expired entry has been made READY
and (when its context was clean and its priority in range) enqueued into
SCHED[priority] of the queues the scan reads; the selected TCB is the
front element of the first non-empty of those queues scanning from
TOP_PRIORITY down, and NULL is returned only when all of them are
empty. -/
theorem select_order_spec (P : Nat) (MAXC : Int) (ct : Nat) (s : SchedState)
    (hP : 1 ≤ P) (hs : sortedWkB s.timeouts = true) :
    ((sched_queue_select P MAXC ct s).st.timeouts =
      s.timeouts.filter (fun t => !expiredB ct t)) ∧
    (∀ t ∈ s.timeouts, expiredB ct t = true →
      t.phase = Thread_phase.CTX_CLEAN →
      t.priority.toNat < s.queues.length →
      readyT t ∈ (drainT ct s.timeouts s.queues).2.getD t.priority.toNat []) ∧
    (∀ t, (sched_queue_select P MAXC ct s).sel = some t →
      ∃ i, i < P ∧
        ((drainT ct s.timeouts s.queues).2.getD i []).head? = some t ∧
        ∀ j, i < j → j < P →
          (drainT ct s.timeouts s.queues).2.getD j [] = []) ∧
    ((sched_queue_select P MAXC ct s).sel = none →
      ∀ j, j < P → (drainT ct s.timeouts s.queues).2.getD j [] = []) := by
  refine ⟨?_, ?_, ?_, ?_⟩
  · rw [select_timeouts_eq, drainT_timeouts,
      dropWhile_expired_eq_filter ct s.timeouts hs]
  · intro t hmem he hph hpr
    exact drainT_enqueues ct s.timeouts s.queues t hmem he hph hpr hs
  · intro t hsel
    rw [select_sel_eq] at hsel
    cases hpop : selPop P ct s with
    | none => rw [hpop] at hsel; exact Option.noConfusion hsel
    | some x =>
      obtain ⟨t0, i, q2⟩ := x
      rw [hpop] at hsel
      have ht0 : t0 = t := by
        have := Option.some.inj hsel
        simpa using this
      subst ht0
      obtain ⟨h1, ⟨r, hr, _⟩, h3⟩ :=
        scanPopAux_some (drainT ct s.timeouts s.queues).2 (P - 1) t0 i q2 hpop
      refine ⟨i, by omega, by rw [hr]; rfl, fun j hj1 hj2 => ?_⟩
      exact h3 j hj1 (by omega)
  · intro hsel j hj
    rw [select_sel_eq] at hsel
    cases hpop : selPop P ct s with
    | none =>
      exact (scanPopAux_none (drainT ct s.timeouts s.queues).2 (P - 1)).mp
        hpop j (by omega)
    | some x =>
      rw [hpop] at hsel
      obtain ⟨t0, i, q2⟩ := x
      exact Option.noConfusion hsel

theorem select_order_spec_witness :
    (1 ≤ 3 ∧ sortedWkB c9s.timeouts = true) ∧
    (sched_queue_select 3 100 10 c9s).st.timeouts = [] ∧
    readyT c9e ∈ (drainT 10 c9s.timeouts c9s.queues).2.getD 1 [] ∧
    (sched_queue_select 3 100 10 c9s).sel = some c4c := by
  have h := select_order_spec 3 100 10 c9s (by omega) rfl
  refine ⟨⟨by omega, rfl⟩, ?_, ?_, by decide⟩
  · rw [h.1]; decide
  · exact h.2.1 c9e (by decide) rfl rfl (by decide)

theorem runSel_cons (P : Nat) (MAXC : Int)
    (st : Nat × (SchedState → SchedState))
    (steps : List (Nat × (SchedState → SchedState))) (s0 : SchedState) :
    runSel P MAXC (st :: steps) s0 =
      runSel P MAXC steps ((sched_queue_select P MAXC st.1 (st.2 s0)).st) :=
  rfl

theorem runSel_fs (P : Nat) (MAXC : Int) :
    ∀ (steps : List (Nat × (SchedState → SchedState))) (s0 : SchedState),
      (∀ p ∈ steps, ∀ s : SchedState, (p.2 s).fs = s.fs) →
      (runSel P MAXC steps s0).fs = s0.fs + steps.length := by
  intro steps
  induction steps with
  | nil => intro s0 _; simp [runSel]
  | cons st rest ih =>
    intro s0 henv
    rw [runSel_cons, ih _ (fun p hp => henv p (List.mem_cons_of_mem _ hp)),
      select_fs_eq, henv st (List.mem_cons_self _ _) s0]
    simp only [List.length_cons]
    push_cast
    ring

/-- C5: fail_safe grows by exactly one on every sched_queue_select call
and is never reset (boost does not touch it); the boost branch fires
exactly when the clamped congestion reaches MAX_CONGESTION or the
incremented fail_safe equals 500; hence over any run of selections whose
interleaved environment steps leave fail_safe alone, starting from
fail_safe = 0, fail_safe counts the selections, the fail-safe equality
holds at the k-th selection iff that is the 500th one (so it fires
exactly once per process lifetime), and any run of at least 500
selections invokes boost at its 500th selection regardless of
congestion. -/
theorem fail_safe_spec (P : Nat) (MAXC : Int)
    (steps : List (Nat × (SchedState → SchedState))) (s0 : SchedState)
    (henv : ∀ p ∈ steps, ∀ s : SchedState, (p.2 s).fs = s.fs)
    (h0 : s0.fs = 0) :
    (∀ (ct : Nat) (s : SchedState),
      (sched_queue_select P MAXC ct s).st.fs = s.fs + 1) ∧
    (∀ s : SchedState, (boost P s).fs = s.fs) ∧
    (∀ (ct : Nat) (s : SchedState),
      ((sched_queue_select P MAXC ct s).boosted = true ↔
        (MAXC ≤ selectCC P ct s ∨ s.fs + 1 = 500))) ∧
    (runSel P MAXC steps s0).fs = steps.length ∧
    (∀ k, k < steps.length →
      ((runSel P MAXC (steps.take k) s0).fs + 1 = 500 ↔ k = 499)) ∧
    (∀ hk : 499 < steps.length,
      (sched_queue_select P MAXC (steps.get ⟨499, hk⟩).1
        ((steps.get ⟨499, hk⟩).2
          (runSel P MAXC (steps.take 499) s0))).boosted = true) := by
  have htake : ∀ k, ∀ p ∈ steps.take k, ∀ s : SchedState,
      (p.2 s).fs = s.fs :=
    fun k p hp => henv p (List.take_subset k steps hp)
  have hfs_take : ∀ k, (runSel P MAXC (steps.take k) s0).fs =
      ((steps.take k).length : Int) := by
    intro k
    rw [runSel_fs P MAXC _ s0 (htake k), h0]
    ring
  refine ⟨fun ct s => select_fs_eq P MAXC ct s, fun s => rfl,
    fun ct s => ?_, ?_, ?_, ?_⟩
  · rw [select_boosted_eq]
    exact decide_eq_true_iff
  · rw [runSel_fs P MAXC steps s0 henv, h0]
    ring
  · intro k hk
    rw [hfs_take k]
    have hlen : (steps.take k).length = k := by
      rw [List.length_take]
      omega
    rw [hlen]
    omega
  · intro hk
    rw [select_boosted_eq]
    apply decide_eq_true
    right
    rw [henv (steps.get ⟨499, hk⟩) (List.get_mem steps 499 hk),
      hfs_take 499, List.length_take]
    have hmin : min 499 steps.length = 499 := by omega
    rw [hmin]
    norm_num

theorem fail_safe_spec_witness :
    (∀ p ∈ c5steps, ∀ s : SchedState, (p.2 s).fs = s.fs) ∧ c5s0.fs = 0 ∧
    (runSel 3 1000 c5steps c5s0).fs = 500 := by
  have henv : ∀ p ∈ c5steps, ∀ s : SchedState, (p.2 s).fs = s.fs := by
    intro p hp s
    have hp' := List.eq_of_mem_replicate hp
    rw [hp']
    rfl
  refine ⟨henv, rfl, ?_⟩
  have h := fail_safe_spec 3 1000 c5steps c5s0 henv rfl
  rw [h.2.2.2.1]
  norm_num [c5steps, List.length_replicate]
